import Mathlib

/-!
Verification development for the pagination, aggregation and calendar
arithmetic core of a Jira activity-summary script.  Every definition is a
shallow embedding of the corresponding Python function in
src/jira-activity-summary.py, keeping the source names where Lean allows.
-/

namespace Wrapped

/-! ## Paginated search client (jira_search)

The service returns, for each request, a response envelope holding a list of
issues, an optional continuation token (`nextPageToken`) and an optional
`total`.  The loop in jira_search is driven only by the order of requests, so
a synthetic service is modelled as a function from the request index to the
response handed back for that request.  Issues are opaque payloads, hence the
type parameter. -/

structure Page (α : Type) where
  issues : List α
  nextPageToken : Option String
  total : Option Int
deriving DecidableEq

/-- Python truthiness of the value of data.get("nextPageToken"): the token is
truthy iff it is present and is a nonempty string.  The loop tests
`if not next_page_token: break` with exactly this semantics. -/
def tokenTruthy : Option String → Bool
  | none => false
  | some s => !(s = "")

/-- The safety limit from jira_search: max_iterations = 100. -/
def max_iterations : Nat := 100

/-- Direct transcription of the while-loop of jira_search.
State: `iteration` is the loop counter (also the index of the next request),
`remaining = max_iterations - iteration` is the number of loop-guard checks
left, `all_issues` is the accumulator.  One loop body equals: fetch the page
for the current request index, extend the accumulator, break when the page has
zero issues, break when the token is falsy, else increment `iteration`.
Returns `(all_issues, number of requests issued, final value of iteration)`;
the source prints the cap warning iff the final iteration value is at least
max_iterations. -/
def searchLoop {α : Type} (service : Nat → Page α) :
    Nat → Nat → List α → List α × Nat × Nat
  | iteration, 0, all_issues => (all_issues, iteration, iteration)
  | iteration, r + 1, all_issues =>
    let page := service iteration
    let acc := all_issues ++ page.issues
    if page.issues.length = 0 then (acc, iteration + 1, iteration)
    else if tokenTruthy page.nextPageToken = false then (acc, iteration + 1, iteration)
    else searchLoop service (iteration + 1) r acc

/-- jira_search on a synthetic paginated service: run the loop from
iteration 0 with an empty accumulator and the documented cap. -/
def jira_search {α : Type} (service : Nat → Page α) : List α × Nat × Nat :=
  searchLoop service 0 max_iterations []

/-- The issues returned by a run of jira_search. -/
def searchIssues {α : Type} (service : Nat → Page α) : List α :=
  (jira_search service).1

/-- The number of page fetches (HTTP requests) a run of jira_search issues. -/
def searchRequests {α : Type} (service : Nat → Page α) : Nat :=
  (jira_search service).2.1

/-- The final value of the iteration counter; the source logs the cap warning
iff this is at least max_iterations. -/
def searchFinalIter {α : Type} (service : Nat → Page α) : Nat :=
  (jira_search service).2.2

/-- Whether the run surfaces the cap warning (`iteration >= max_iterations`
after the loop). -/
def capWarning {α : Type} (service : Nat → Page α) : Bool :=
  decide (max_iterations ≤ searchFinalIter service)

lemma searchLoop_requests_bounds {α : Type} (service : Nat → Page α) :
    ∀ (r iteration : Nat) (acc : List α),
      iteration ≤ (searchLoop service iteration r acc).2.1 ∧
      (searchLoop service iteration r acc).2.1 ≤ iteration + r := by
  intro r
  induction r with
  | zero =>
    intro iteration acc
    simp [searchLoop]
  | succ r ih =>
    intro iteration acc
    simp only [searchLoop]
    split
    · dsimp only; omega
    · split
      · dsimp only; omega
      · have h := ih (iteration + 1) (acc ++ (service iteration).issues)
        omega

lemma searchLoop_issues {α : Type} (service : Nat → Page α) :
    ∀ (r iteration : Nat) (acc : List α),
      (searchLoop service iteration r acc).1 =
        acc ++ ((List.range' iteration ((searchLoop service iteration r acc).2.1 - iteration)).map
          (fun j => (service j).issues)).flatten := by
  intro r
  induction r with
  | zero =>
    intro iteration acc
    simp [searchLoop]
  | succ r ih =>
    intro iteration acc
    simp only [searchLoop]
    split
    next h0 =>
      dsimp only
      have hnil : (service iteration).issues = [] := List.length_eq_zero.mp h0
      have hs : iteration + 1 - iteration = 1 := by omega
      rw [hs, List.range'_one]
      simp [hnil]
    next h0 =>
      split
      next h1 =>
        dsimp only
        have hs : iteration + 1 - iteration = 1 := by omega
        rw [hs, List.range'_one]
        simp
      next h1 =>
        rw [ih (iteration + 1) (acc ++ (service iteration).issues)]
        have hge : iteration + 1 ≤ (searchLoop service (iteration + 1) r
            (acc ++ (service iteration).issues)).2.1 :=
          (searchLoop_requests_bounds service r (iteration + 1)
            (acc ++ (service iteration).issues)).1
        set m := (searchLoop service (iteration + 1) r
          (acc ++ (service iteration).issues)).2.1 with hm
        have hsub : m - iteration = (m - (iteration + 1)) + 1 := by omega
        rw [hsub, List.range'_succ]
        simp [List.append_assoc]

/-- Every request strictly before the next-to-last one was answered with a
nonempty page carrying a truthy token: otherwise the loop would have broken. -/
lemma searchLoop_continuing {α : Type} (service : Nat → Page α) :
    ∀ (r iteration : Nat) (acc : List α) (j : Nat),
      iteration ≤ j → j + 1 < (searchLoop service iteration r acc).2.1 →
      (service j).issues.length ≠ 0 ∧ tokenTruthy (service j).nextPageToken = true := by
  intro r
  induction r with
  | zero =>
    intro iteration acc j hij hj
    simp only [searchLoop] at hj
    omega
  | succ r ih =>
    intro iteration acc j hij hj
    simp only [searchLoop] at hj
    revert hj
    split
    next h0 => dsimp only; omega
    next h0 =>
      split
      next h1 => dsimp only; omega
      next h1 =>
        intro hj
        simp only [Bool.not_eq_false] at h1
        rcases Nat.eq_or_lt_of_le hij with heq | hlt
        · subst heq
          exact ⟨h0, h1⟩
        · exact ih (iteration + 1) (acc ++ (service iteration).issues) j hlt hj

/-- If every page in the window is nonempty with a truthy token, the loop runs
to exhaustion: it issues one request per guard check and the final iteration
counter equals the cap. -/
lemma searchLoop_exhaust {α : Type} (service : Nat → Page α) :
    ∀ (r iteration : Nat) (acc : List α),
      (∀ j, iteration ≤ j → j < iteration + r →
        (service j).issues.length ≠ 0 ∧ tokenTruthy (service j).nextPageToken = true) →
      (searchLoop service iteration r acc).2.1 = iteration + r ∧
      (searchLoop service iteration r acc).2.2 = iteration + r := by
  intro r
  induction r with
  | zero =>
    intro iteration acc _
    simp [searchLoop]
  | succ r ih =>
    intro iteration acc hcont
    have hhead := hcont iteration (Nat.le_refl _) (by omega)
    simp only [searchLoop]
    split
    next h0 => exact absurd h0 hhead.1
    next h0 =>
      split
      next h1 => rw [hhead.2] at h1; simp at h1
      next h1 =>
        have harg : ∀ j, iteration + 1 ≤ j → j < iteration + 1 + r →
            (service j).issues.length ≠ 0 ∧ tokenTruthy (service j).nextPageToken = true := by
          intro j hja hjb
          exact hcont j (by omega) (by omega)
        have := ih (iteration + 1) (acc ++ (service iteration).issues) harg
        omega

/-- If request k was issued and its response breaks the loop (empty page or
falsy token), the run stops right there: exactly k + 1 requests in total. -/
lemma searchRequests_break {α : Type} (service : Nat → Page α) (k : Nat)
    (hk : k < searchRequests service)
    (hbreak : (service k).issues = [] ∨ tokenTruthy (service k).nextPageToken = false) :
    searchRequests service = k + 1 := by
  by_contra hne
  have hlt : k + 1 < searchRequests service := by omega
  have hcont := searchLoop_continuing service max_iterations 0 [] k (Nat.zero_le k) hlt
  rcases hbreak with h | h
  · exact hcont.1 (by simp [h])
  · rw [hcont.2] at h
    simp at h

/-- The returned list is the concatenation of the fetched pages, split, at the
top level, over the actual request count of the run. -/
lemma searchIssues_eq {α : Type} (service : Nat → Page α) :
    searchIssues service =
      ((List.range (searchRequests service)).map (fun j => (service j).issues)).flatten := by
  have h := searchLoop_issues service max_iterations 0 []
  simpa [searchIssues, searchRequests, jira_search, List.range_eq_range'] using h

/-- C1: for every sequence of paginated responses, jira_search returns exactly
the concatenation of all fetched pages issue lists, in page order, however
many pages are fetched; consequently the length of the result equals the sum
of the page sizes across all fetched pages. -/
theorem search_concat_pages {α : Type} (service : Nat → Page α) :
    searchIssues service =
      ((List.range (searchRequests service)).map (fun j => (service j).issues)).flatten ∧
    (searchIssues service).length =
      ((List.range (searchRequests service)).map (fun j => (service j).issues.length)).sum := by
  refine ⟨searchIssues_eq service, ?_⟩
  rw [searchIssues_eq service]
  simp [List.length_flatten, Function.comp_def]

/-- C2: jira_search performs at most 100 page fetches for any service, and
when the service answers every one of the first 100 requests with a nonempty
page and a truthy continuation token, the run hits the cap: it stops at
exactly 100 requests, surfaces the warning flag (not an error: the loop
returns normally), and the result is exactly the issues collected from those
100 pages. -/
theorem search_iteration_cap {α : Type} (service : Nat → Page α) :
    searchRequests service ≤ 100 ∧
    ((∀ j, j < 100 →
        (service j).issues.length ≠ 0 ∧ tokenTruthy (service j).nextPageToken = true) →
      searchRequests service = 100 ∧ capWarning service = true ∧
      searchIssues service = ((List.range 100).map (fun j => (service j).issues)).flatten) := by
  constructor
  · have h := (searchLoop_requests_bounds service max_iterations 0 []).2
    simpa [searchRequests, jira_search, max_iterations] using h
  · intro hcont
    have hharg : ∀ j, 0 ≤ j → j < 0 + max_iterations →
        (service j).issues.length ≠ 0 ∧ tokenTruthy (service j).nextPageToken = true := by
      intro j _ hj
      exact hcont j (by simpa [max_iterations] using hj)
    have hex := searchLoop_exhaust service max_iterations 0 [] hharg
    have hreq : searchRequests service = 100 := by
      have := hex.1
      simpa [searchRequests, jira_search, max_iterations] using this
    refine ⟨hreq, ?_, ?_⟩
    · have hfin : searchFinalIter service = 100 := by
        have := hex.2
        simpa [searchFinalIter, jira_search, max_iterations] using this
      simp [capWarning, hfin, max_iterations]
    · rw [searchIssues_eq service, hreq]

/-- A synthetic misbehaving service: every response carries one issue and a
continuation token, forever. -/
def tokenForeverService : Nat → Page Nat :=
  fun _ => { issues := [0], nextPageToken := some "tok", total := none }

/-- Witness for C2 at the token-forever service: the cap is hit after exactly
100 requests, the warning is surfaced, and the accumulated issues are
returned. -/
theorem search_iteration_cap_witness :
    searchRequests tokenForeverService = 100 ∧ capWarning tokenForeverService = true ∧
      searchIssues tokenForeverService =
        ((List.range 100).map (fun j => (tokenForeverService j).issues)).flatten :=
  (search_iteration_cap tokenForeverService).2
    (by intro j _; exact ⟨by simp [tokenForeverService], by simp [tokenForeverService, tokenTruthy]⟩)

/-- C3: if request k was issued and its response either omits the
continuation token or returns zero issues, the run stops immediately after
that page: exactly k + 1 requests are made, and the result is the
concatenation of pages 0 through k.  The service is arbitrary, so in
particular the `total` field of the response may announce any number of
further results: the loop never consults it when deciding to stop. -/
theorem search_stops_on_break_page {α : Type} (service : Nat → Page α) (k : Nat)
    (hk : k < searchRequests service)
    (hbreak : (service k).nextPageToken = none ∨ (service k).issues = []) :
    searchRequests service = k + 1 ∧
    searchIssues service = ((List.range (k + 1)).map (fun j => (service j).issues)).flatten := by
  have hb2 : (service k).issues = [] ∨ tokenTruthy (service k).nextPageToken = false := by
    rcases hbreak with h | h
    · exact Or.inr (by simp [tokenTruthy, h])
    · exact Or.inl h
  have hreq := searchRequests_break service k hk hb2
  exact ⟨hreq, by rw [searchIssues_eq service, hreq]⟩

/-- A synthetic service whose first response has two issues, no continuation
token, and a total announcing that many more results remain. -/
def noTokenService : Nat → Page Nat :=
  fun i => if i = 0 then { issues := [1, 2], nextPageToken := none, total := some 50 }
    else { issues := [3], nextPageToken := some "tok", total := some 50 }

/-- Witness for C3 at a concrete service: the first page carries no token
(while total = 50 suggests more remain), so exactly one request is made and
its two issues are returned. -/
theorem search_stops_on_break_page_witness :
    searchRequests noTokenService = 0 + 1 ∧
      searchIssues noTokenService =
        ((List.range (0 + 1)).map (fun j => (noTokenService j).issues)).flatten :=
  search_stops_on_break_page noTokenService 0 (by decide) (Or.inl (by decide))

/-- C9: a continuation token equal to the empty string is falsy in the
source's `if not next_page_token` test, so jira_search treats it exactly like
an absent token: it stops after that page and issues no further requests. -/
theorem search_stops_on_empty_string_token {α : Type} (service : Nat → Page α) (k : Nat)
    (hk : k < searchRequests service)
    (htok : (service k).nextPageToken = some "") :
    searchRequests service = k + 1 ∧
    searchIssues service = ((List.range (k + 1)).map (fun j => (service j).issues)).flatten := by
  have hb2 : (service k).issues = [] ∨ tokenTruthy (service k).nextPageToken = false :=
    Or.inr (by simp [tokenTruthy, htok])
  have hreq := searchRequests_break service k hk hb2
  exact ⟨hreq, by rw [searchIssues_eq service, hreq]⟩

/-- A synthetic service whose first response has one issue and an
empty-string continuation token. -/
def emptyTokenService : Nat → Page Nat :=
  fun i => if i = 0 then { issues := [7], nextPageToken := some "", total := some 9 }
    else { issues := [8], nextPageToken := some "tok", total := some 9 }

/-- Witness for C9 at a concrete service: the first page returns the token ""
and one issue; the run makes exactly one request and returns that issue. -/
theorem search_stops_on_empty_string_token_witness :
    searchRequests emptyTokenService = 0 + 1 ∧
      searchIssues emptyTokenService =
        ((List.range (0 + 1)).map (fun j => (emptyTokenService j).issues)).flatten :=
  search_stops_on_empty_string_token emptyTokenService 0 (by decide) (by decide)

/-! ## Aggregators (count_by_type, sum_story_points)

An issue, for the aggregators, is a record with the issue type name (the
source reads issue["fields"]["issuetype"]["name"]) and the remaining fields
dictionary, modelled as an association list with first-match lookup (Python
dict keys are unique, so first-match lookup agrees with dict.get).  A field
value is a JSON scalar as Python json.loads yields it. -/

inductive FieldVal : Type
  | num (q : ℚ)
  | str (s : String)
  | bool (b : Bool)
  | null
  | other
deriving DecidableEq

structure Issue : Type where
  issuetype : String
  fields : List (String × FieldVal)
deriving DecidableEq

/-- dict.get on the fields dictionary: first matching key, none when absent. -/
def dictGet : List (String × FieldVal) → String → Option FieldVal
  | [], _ => none
  | p :: rest, k => if p.1 = k then some p.2 else dictGet rest k

/-- A Python float value: an exact rational for finite values, or one of the
special values infinity, negative infinity and nan, all of which float()
produces from strings ("inf", "-infinity", "nan", ...).  Finite values are
kept as exact rationals rather than rounded to binary doubles, and signed
zeros collapse to 0: the source only ever adds these values up and the spec
treats the totals as reals. -/
inductive PyFloat : Type
  | finite (q : ℚ)
  | inf
  | negInf
  | nan
deriving DecidableEq

/-- IEEE addition of Python floats at the exact-rational idealization:
nan absorbs, opposite infinities give nan, an infinity absorbs everything
else, and finite values add exactly. -/
def PyFloat.add : PyFloat → PyFloat → PyFloat
  | .nan, _ => .nan
  | _, .nan => .nan
  | .inf, .negInf => .nan
  | .negInf, .inf => .nan
  | .inf, _ => .inf
  | _, .inf => .inf
  | .negInf, _ => .negInf
  | _, .negInf => .negInf
  | .finite a, .finite b => .finite (a + b)

/-- Digits of a decimal literal to a natural number, most significant first. -/
def digitsToNat (cs : List Char) : Nat :=
  cs.foldl (fun acc c => 10 * acc + (c.toNat - 48)) 0

/-- Continuation of a digit part after its first digit: further digits,
possibly with single underscores between digits (PEP 515); stops before
anything else, leaving an underscore that is not followed by a digit
unconsumed (so that the overall parse then fails, as float() does on
"1_" or "1__0").  Returns the digits read (underscores dropped) and the
unread remainder. -/
def digitPartRest : List Char → List Char × List Char
  | [] => ([], [])
  | c :: rest =>
    if c.isDigit then
      let p := digitPartRest rest
      (c :: p.1, p.2)
    else if c = '_' then
      match rest with
      | d :: rest2 =>
        if d.isDigit then
          let p := digitPartRest rest2
          (d :: p.1, p.2)
        else ([], c :: rest)
      | [] => ([], [c])
    else ([], c :: rest)

/-- A digit part of a Python float literal: a digit, then digits with
optional single underscores between them.  none when the input does not
start with a digit. -/
def parseDigitPart (cs : List Char) : Option (List Char × List Char) :=
  match cs with
  | c :: rest =>
    if c.isDigit then
      let p := digitPartRest rest
      some (c :: p.1, p.2)
    else none
  | [] => none

/-- An unsigned Python float literal: an optional integer digit part, an
optional dot with an optional fraction digit part (at least one digit
overall), and an optional exponent ("e" or "E", an optional sign, and a
digit part), with nothing left over.  The value is exact: mantissa times
ten to the (signed) exponent. -/
def parseFloatNumber (cs : List Char) : Option ℚ :=
  let ip :=
    match parseDigitPart cs with
    | some p => p
    | none => (([] : List Char), cs)
  let fp :=
    match ip.2 with
    | '.' :: r =>
      match parseDigitPart r with
      | some p => p
      | none => (([] : List Char), r)
    | _ => (([] : List Char), ip.2)
  if ip.1.isEmpty && fp.1.isEmpty then none
  else
    let mant : ℚ := (digitsToNat ip.1 : ℚ) + (digitsToNat fp.1 : ℚ) / (10 : ℚ) ^ fp.1.length
    match fp.2 with
    | [] => some mant
    | c :: r3 =>
      if c = 'e' || c = 'E' then
        let sp : Bool × List Char :=
          match r3 with
          | '-' :: rr => (true, rr)
          | '+' :: rr => (false, rr)
          | _ => (false, r3)
        match parseDigitPart sp.2 with
        | some (eds, []) =>
          some (if sp.1 then mant / (10 : ℚ) ^ digitsToNat eds
            else mant * (10 : ℚ) ^ digitsToNat eds)
        | _ => none
      else none

/-- Leading and trailing whitespace stripped from a character list; float()
ignores surrounding whitespace in its string argument. -/
def stripChars (cs : List Char) : List Char :=
  ((cs.dropWhile (fun c => c.isWhitespace)).reverse.dropWhile (fun c => c.isWhitespace)).reverse

/-- Python float() on a string: strip surrounding whitespace, read an
optional sign, then either "inf", "infinity" or "nan" (case-insensitive), or
a decimal literal with optional fraction, optional exponent and optional
underscore digit separators.  Anything else ("bad", "1__0", "1e", ...)
raises ValueError in the source and is mapped to none.  Idealizations:
digits and whitespace are ASCII (CPython additionally accepts non-ASCII
Unicode decimal digits and whitespace), and finite results are exact
rationals, not rounded doubles. -/
def pyFloatOfString (s : String) : Option PyFloat :=
  let cs := stripChars s.toList
  let sp : Bool × List Char :=
    match cs with
    | '-' :: r => (true, r)
    | '+' :: r => (false, r)
    | _ => (false, cs)
  let lower := sp.2.map Char.toLower
  if lower = ['i', 'n', 'f'] || lower = ['i', 'n', 'f', 'i', 'n', 'i', 't', 'y'] then
    some (if sp.1 then PyFloat.negInf else PyFloat.inf)
  else if lower = ['n', 'a', 'n'] then
    some PyFloat.nan
  else
    (parseFloatNumber sp.2).map (fun q => PyFloat.finite (if sp.1 then -q else q))

/-- Python float() on a field value: numbers pass through, strings are
parsed, booleans coerce to 0 or 1, and anything else (None, arrays, objects)
raises TypeError in the source, mapped to none here. -/
def pyFloatVal : FieldVal → Option PyFloat
  | .num q => some (PyFloat.finite q)
  | .str s => pyFloatOfString s
  | .bool b => some (PyFloat.finite (if b then 1 else 0))
  | .null => none
  | .other => none

/-- One pass of the loop body of sum_story_points: read the story-point
field with dict.get, skip the issue when the field is absent or None (JSON
null), otherwise try float() on it, adding to the running total and count on
success and skipping the issue on ValueError or TypeError. -/
def spStep (field_name : String) (acc : PyFloat × Nat) (issue : Issue) : PyFloat × Nat :=
  match dictGet issue.fields field_name with
  | none => acc
  | some FieldVal.null => acc
  | some v =>
    match pyFloatVal v with
    | some q => (PyFloat.add acc.1 q, acc.2 + 1)
    | none => acc

/-- Transcription of sum_story_points: fold the loop body over the issues
starting from total = 0.0, count = 0. -/
def sum_story_points (issues : List Issue)
    (field_name : String := "customfield_10014") : PyFloat × Nat :=
  issues.foldl (spStep field_name) (PyFloat.finite 0, 0)

/-- The numeric value sum_story_points extracts from one issue, when any:
the story-point field parsed as a float, none when the field is absent, is
None, or fails to parse. -/
def parsedPoints (field_name : String) (issue : Issue) : Option PyFloat :=
  match dictGet issue.fields field_name with
  | none => none
  | some FieldVal.null => none
  | some v => pyFloatVal v

/-- The loop body, as a function of what it parsed from the issue. -/
lemma spStep_eq (field_name : String) (acc : PyFloat × Nat) (issue : Issue) :
    spStep field_name acc issue =
      match parsedPoints field_name issue with
      | some q => (PyFloat.add acc.1 q, acc.2 + 1)
      | none => acc := by
  unfold spStep parsedPoints
  cases hv : dictGet issue.fields field_name with
  | none => rfl
  | some v => cases v <;> rfl

lemma sum_story_points_foldl (field_name : String) :
    ∀ (issues : List Issue) (t : PyFloat) (c : Nat),
      issues.foldl (spStep field_name) (t, c) =
      ((issues.filterMap (parsedPoints field_name)).foldl PyFloat.add t,
        c + (issues.filterMap (parsedPoints field_name)).length) := by
  intro issues
  induction issues with
  | nil => intro t c; simp
  | cons issue rest ih =>
    intro t c
    rw [List.foldl_cons, spStep_eq field_name (t, c) issue, List.filterMap_cons]
    cases hp : parsedPoints field_name issue with
    | none => simpa using ih t c
    | some q =>
      simp only
      rw [ih (PyFloat.add t q) (c + 1), List.foldl_cons]
      refine Prod.ext ?_ ?_
      · rfl
      · simp [List.length_cons]
        omega

/-- The issue list of the spec example for sum_story_points: story-point
field values 3, "5", null, "bad", 2.5 in order. -/
def spExampleIssues : List Issue :=
  [ { issuetype := "Story", fields := [("customfield_10014", FieldVal.num 3)] },
    { issuetype := "Story", fields := [("customfield_10014", FieldVal.str "5")] },
    { issuetype := "Story", fields := [("customfield_10014", FieldVal.null)] },
    { issuetype := "Story", fields := [("customfield_10014", FieldVal.str "bad")] },
    { issuetype := "Story", fields := [("customfield_10014", FieldVal.num (5 / 2))] } ]

/-- Sanity check for the float() model: exponent notation parses, as in the
source, to a finite value. -/
lemma pyFloatOfString_exponent : pyFloatOfString "1e5" = some (PyFloat.finite 100000) := by
  have h : pyFloatOfString "1e5" = some (PyFloat.finite
      ((((1 : ℕ) : ℚ) + ((0 : ℕ) : ℚ) / (10 : ℚ) ^ (0 : ℕ)) * (10 : ℚ) ^ (5 : ℕ))) := rfl
  rw [h]
  norm_num

/-- Sanity check for the float() model: "inf" parses to infinity, not to a
parse failure. -/
lemma pyFloatOfString_infinity : pyFloatOfString "inf" = some PyFloat.inf := rfl

/-- Sanity check for the float() model: underscore digit separators parse,
as in the source. -/
lemma pyFloatOfString_underscore :
    pyFloatOfString "1_000.5" = some (PyFloat.finite (2001 / 2)) := by
  have h : pyFloatOfString "1_000.5" = some (PyFloat.finite
      (((1000 : ℕ) : ℚ) + ((5 : ℕ) : ℚ) / (10 : ℚ) ^ (1 : ℕ))) := rfl
  rw [h]
  norm_num

/-- C7: sum_story_points skips every issue whose story-point field is absent,
None, or not parseable as a number, excluding it from both the total and the
count, and never fails: the total is the running float sum of exactly the
successfully parsed values, in order, and the count is their number.  Over
field values [3, "5", null, "bad", 2.5] it returns total 10.5 and count 3. -/
theorem sum_story_points_skips_bad_values :
    (∀ (issues : List Issue) (field_name : String),
      (sum_story_points issues field_name).1 =
          (issues.filterMap (parsedPoints field_name)).foldl PyFloat.add (PyFloat.finite 0) ∧
      (sum_story_points issues field_name).2 =
          (issues.filterMap (parsedPoints field_name)).length) ∧
    sum_story_points spExampleIssues "customfield_10014" = (PyFloat.finite (21 / 2), 3) := by
  constructor
  · intro issues field_name
    have h := sum_story_points_foldl field_name issues (PyFloat.finite 0) 0
    rw [sum_story_points, h]
    simp
  · have h1 : (sum_story_points spExampleIssues "customfield_10014").1 =
        PyFloat.finite ((0 : ℚ) + 3 + (((5 : ℕ) : ℚ) + ((0 : ℕ) : ℚ) / (10 : ℚ) ^ (0 : ℕ))
          + 5 / 2) := rfl
    have h2 : (sum_story_points spExampleIssues "customfield_10014").2 = 3 := rfl
    have h3 : (0 : ℚ) + 3 + (((5 : ℕ) : ℚ) + ((0 : ℕ) : ℚ) / (10 : ℚ) ^ (0 : ℕ)) + 5 / 2 =
        21 / 2 := by norm_num
    refine Prod.ext ?_ ?_
    · rw [h1, h3]
    · rw [h2]

/-! ## count_by_type and Counter

count_by_type builds collections.Counter over the list of type names.  The
Counter is modelled as its items() view: an association list from type name
to count, in first-seen key order (CPython dicts preserve insertion order).
Counting one name either increments its existing entry in place or appends a
fresh entry with count 1.  Counter.most_common() with no argument is
CPython's sorted(items, key = count, reverse = True): a stable sort by
descending count, modelled by the matching insertion sort. -/

/-- Add one occurrence of a key to the Counter items: increment the first
matching entry in place, or append a new entry with count 1. -/
def counterAdd : List (String × Nat) → String → List (String × Nat)
  | [], k => [(k, 1)]
  | p :: rest, k => if p.1 = k then (p.1, p.2 + 1) :: rest else p :: counterAdd rest k

/-- Counter over a list of names. -/
def counterOfList (names : List String) : List (String × Nat) :=
  names.foldl counterAdd []

/-- Counter lookup: the count stored for a key, 0 when the key is absent. -/
def counterCount : List (String × Nat) → String → Nat
  | [], _ => 0
  | p :: rest, k => if p.1 = k then p.2 else counterCount rest k

/-- Transcription of count_by_type: Counter over the list of type names. -/
def count_by_type (issues : List Issue) : List (String × Nat) :=
  counterOfList (issues.map (fun issue => issue.issuetype))

/-- The order most_common sorts by: descending stored count. -/
def byCountDesc (a b : String × Nat) : Prop := b.2 ≤ a.2

instance : DecidableRel byCountDesc := fun a b => Nat.decLe b.2 a.2

instance : IsTotal (String × Nat) byCountDesc := ⟨fun a b => Nat.le_total b.2 a.2⟩

instance : IsTrans (String × Nat) byCountDesc := ⟨fun _ _ _ hab hbc => le_trans hbc hab⟩

/-- Counter.most_common() with no argument: stable sort of the items by
descending count.  Equal counts keep their items() order, which is first-seen
key order; the insertion sort below places each newly inserted item before
every already placed item of less or equal count, which is exactly the
stability CPython's sorted guarantees (proved as filter_most_common). -/
def most_common (c : List (String × Nat)) : List (String × Nat) :=
  List.insertionSort byCountDesc c

/-- The keys a list of names contributes, each at its first occurrence, in
order of first occurrence. -/
def firstSeenKeys : List String → List String
  | [] => []
  | a :: l => a :: (firstSeenKeys l).filter (fun b => b ≠ a)

lemma counterCount_counterAdd (c : List (String × Nat)) (k k2 : String) :
    counterCount (counterAdd c k) k2 =
      counterCount c k2 + if k2 = k then 1 else 0 := by
  induction c with
  | nil => simp [counterAdd, counterCount, eq_comm]
  | cons p rest ih =>
    by_cases h1 : p.1 = k
    · subst h1
      by_cases h2 : p.1 = k2
      · subst h2
        simp [counterAdd, counterCount]
      · simp [counterAdd, counterCount, h2, Ne.symm h2]
    · by_cases h2 : p.1 = k2
      · subst h2
        simp [counterAdd, counterCount, h1, Ne.symm h1]
      · simp [counterAdd, counterCount, h1, h2, ih]

lemma counterCount_foldl (k : String) :
    ∀ (names : List String) (c : List (String × Nat)),
      counterCount (names.foldl counterAdd c) k = counterCount c k + names.count k := by
  intro names
  induction names with
  | nil => intro c; simp
  | cons a rest ih =>
    intro c
    rw [List.foldl_cons, ih (counterAdd c a), counterCount_counterAdd, List.count_cons]
    by_cases h : a = k
    · simp [h]
      omega
    · have h2 : ¬(k = a) := fun hh => h hh.symm
      simp [h, h2]

/-- The count stored for each key is the number of occurrences of that key in
the input names. -/
lemma counterCount_counterOfList (names : List String) (k : String) :
    counterCount (counterOfList names) k = names.count k := by
  have h := counterCount_foldl k names []
  simpa [counterOfList, counterCount] using h

lemma counterAdd_total (c : List (String × Nat)) (k : String) :
    ((counterAdd c k).map (fun p => p.2)).sum = ((c.map (fun p => p.2)).sum) + 1 := by
  induction c with
  | nil => simp [counterAdd]
  | cons p rest ih =>
    by_cases h : p.1 = k
    · simp [counterAdd, h]
      omega
    · simp [counterAdd, h, ih]
      omega

lemma counterOfList_total :
    ∀ (names : List String) (c : List (String × Nat)),
      ((names.foldl counterAdd c).map (fun p => p.2)).sum =
        ((c.map (fun p => p.2)).sum) + names.length := by
  intro names
  induction names with
  | nil => intro c; simp
  | cons a rest ih =>
    intro c
    rw [List.foldl_cons, ih (counterAdd c a), counterAdd_total]
    simp
    omega

lemma counterAdd_keys (c : List (String × Nat)) (k : String) :
    (counterAdd c k).map (fun p => p.1) =
      if k ∈ c.map (fun p => p.1) then c.map (fun p => p.1)
      else c.map (fun p => p.1) ++ [k] := by
  induction c with
  | nil => simp [counterAdd]
  | cons p rest ih =>
    by_cases h : p.1 = k
    · simp [counterAdd, h]
    · have h2 : ¬(k = p.1) := fun hh => h hh.symm
      by_cases hmem : k ∈ rest.map (fun p => p.1)
      · simp [counterAdd, h, h2, hmem, ih]
      · simp [counterAdd, h, h2, hmem, ih]

lemma mem_firstSeenKeys (b : String) :
    ∀ (names : List String), b ∈ firstSeenKeys names ↔ b ∈ names := by
  intro names
  induction names with
  | nil => simp [firstSeenKeys]
  | cons a rest ih =>
    simp only [firstSeenKeys, List.mem_cons, List.mem_filter]
    by_cases hba : b = a
    · simp [hba]
    · simp [hba, ih]

lemma firstSeenKeys_append (names : List String) (a : String) :
    firstSeenKeys (names ++ [a]) =
      if a ∈ names then firstSeenKeys names else firstSeenKeys names ++ [a] := by
  induction names with
  | nil => simp [firstSeenKeys]
  | cons x rest ih =>
    rw [List.cons_append]
    simp only [firstSeenKeys]
    rw [ih]
    by_cases hmem : a ∈ rest
    · rw [if_pos hmem, if_pos (List.mem_cons_of_mem x hmem)]
    · rw [if_neg hmem]
      by_cases hax : a = x
      · subst hax
        rw [if_pos (List.mem_cons_self a rest), List.filter_append]
        simp
      · rw [if_neg (by simp [hax, hmem]), List.filter_append]
        simp [hax]

/-- The items of the Counter list its keys in first-seen order. -/
lemma counterOfList_keys (names : List String) :
    (counterOfList names).map (fun p => p.1) = firstSeenKeys names := by
  induction names using List.reverseRecOn with
  | nil => rfl
  | append_singleton rest a ih =>
    have hfold : counterOfList (rest ++ [a]) = counterAdd (counterOfList rest) a := by
      simp [counterOfList, List.foldl_append]
    rw [hfold, counterAdd_keys, ih, firstSeenKeys_append]
    by_cases h : a ∈ rest
    · rw [if_pos ((mem_firstSeenKeys a rest).mpr h), if_pos h]
    · rw [if_neg (fun hh => h ((mem_firstSeenKeys a rest).mp hh)), if_neg h]

/-- Inserting an item into a list keeps, among the items of any fixed count,
the inserted item first and the rest in their old order: the insertion point
is always before the first item of less or equal count. -/
lemma filter_orderedInsert (p : String × Nat) (n : Nat) :
    ∀ (l : List (String × Nat)),
      (List.orderedInsert byCountDesc p l).filter (fun x => x.2 = n) =
        if p.2 = n then p :: l.filter (fun x => x.2 = n)
        else l.filter (fun x => x.2 = n) := by
  intro l
  induction l with
  | nil =>
    by_cases hp : p.2 = n <;> simp [List.orderedInsert, hp]
  | cons q rest ih =>
    simp only [List.orderedInsert]
    by_cases hle : byCountDesc p q
    · rw [if_pos hle]
      by_cases hp : p.2 = n <;> simp [List.filter_cons, hp]
    · rw [if_neg hle]
      have hlt : p.2 < q.2 := by
        have := Nat.lt_of_not_le (fun hh => hle hh)
        exact this
      by_cases hq : q.2 = n
      · have hp : ¬(p.2 = n) := by omega
        simp [List.filter_cons, hq, hp, ih]
      · simp [List.filter_cons, hq, ih]

/-- Stability of most_common: the items of any fixed count appear in the
sorted output in exactly their items() order. -/
lemma filter_most_common (c : List (String × Nat)) (n : Nat) :
    (most_common c).filter (fun x => x.2 = n) = c.filter (fun x => x.2 = n) := by
  induction c with
  | nil => rfl
  | cons p rest ih =>
    simp only [most_common] at ih ⊢
    rw [List.insertionSort, filter_orderedInsert, List.filter_cons]
    by_cases hp : p.2 = n <;> simp [hp, ih]

/-- The issue list of the spec example for count_by_type: a Bug, a Bug and a
Story, in that order. -/
def bugBugStory : List Issue :=
  [ { issuetype := "Bug", fields := [] },
    { issuetype := "Bug", fields := [] },
    { issuetype := "Story", fields := [] } ]

/-- The same issues in a different insertion order. -/
def storyBugBug : List Issue :=
  [ { issuetype := "Story", fields := [] },
    { issuetype := "Bug", fields := [] },
    { issuetype := "Bug", fields := [] } ]

/-- C8: count_by_type maps each type name to the number of issues of that
type, and the mapping is independent of insertion order (permuting the
issues leaves every count unchanged).  Its keys appear in first-seen order,
and the display order produced by most_common is by descending count, ties
keeping the first-seen order of the counter (a stable sort, stated as: the
entries of each fixed count survive in their counter order).  Over
[Bug, Bug, Story] the counter is Bug with 2 and Story with 1, with Bug
listed first by most_common. -/
theorem count_by_type_spec (issues issues2 : List Issue) :
    (∀ k, counterCount (count_by_type issues) k =
        (issues.map (fun i => i.issuetype)).count k) ∧
    (issues.Perm issues2 →
      ∀ k, counterCount (count_by_type issues) k = counterCount (count_by_type issues2) k) ∧
    ((count_by_type issues).map (fun p => p.1) =
        firstSeenKeys (issues.map (fun i => i.issuetype))) ∧
    (most_common (count_by_type issues)).Perm (count_by_type issues) ∧
    List.Sorted byCountDesc (most_common (count_by_type issues)) ∧
    (∀ n, (most_common (count_by_type issues)).filter (fun p => p.2 = n) =
        (count_by_type issues).filter (fun p => p.2 = n)) ∧
    count_by_type bugBugStory = [("Bug", 2), ("Story", 1)] ∧
    most_common (count_by_type bugBugStory) = [("Bug", 2), ("Story", 1)] := by
  refine ⟨?_, ?_, ?_, ?_, ?_, ?_, ?_, ?_⟩
  · intro k
    exact counterCount_counterOfList (issues.map (fun i => i.issuetype)) k
  · intro hperm k
    rw [count_by_type, count_by_type, counterCount_counterOfList, counterCount_counterOfList]
    exact (hperm.map (fun i => i.issuetype)).count_eq k
  · exact counterOfList_keys (issues.map (fun i => i.issuetype))
  · exact List.perm_insertionSort byCountDesc (count_by_type issues)
  · exact List.sorted_insertionSort byCountDesc (count_by_type issues)
  · intro n
    exact filter_most_common (count_by_type issues) n
  · rfl
  · rfl

/-- Witness for C8: the counts assigned by count_by_type agree between the
insertion orders [Bug, Bug, Story] and [Story, Bug, Bug]. -/
theorem count_by_type_spec_witness :
    counterCount (count_by_type bugBugStory) "Bug" =
      counterCount (count_by_type storyBugBug) "Bug" :=
  (count_by_type_spec bugBugStory storyBugBug).2.1 (by decide) "Bug"

/-- C10: the counts in the mapping returned by count_by_type add up to the
number of issues: each issue is counted exactly once under exactly one type
name. -/
theorem count_by_type_counts_each_issue_once (issues : List Issue) :
    ((count_by_type issues).map (fun p => p.2)).sum = issues.length := by
  have h := counterOfList_total (issues.map (fun i => i.issuetype)) []
  simpa [count_by_type, counterOfList] using h

/-! ## Date / working-week calculator (calculate_working_weeks)

The two date arguments reach the source as "YYYY-MM-DD" strings and pass
through datetime.strptime, which raises ValueError unless the fields form a
valid proleptic-Gregorian calendar date with year 1..9999.  A date is
modelled as its numeric fields; toOrdinal is the standard day number
(0001-01-01 is day 1), matching date.toordinal, and date subtraction and
date.weekday() are both functions of it.  Python weekday numbering is
Monday = 0 .. Sunday = 6. -/

structure PyDate : Type where
  year : Nat
  month : Nat
  day : Nat
deriving DecidableEq

def isLeapYear (y : Nat) : Bool :=
  (y % 4 = 0 && !(y % 100 = 0)) || y % 400 = 0

def daysInMonth (y m : Nat) : Nat :=
  if m = 2 then (if isLeapYear y then 29 else 28)
  else if m = 4 || m = 6 || m = 9 || m = 11 then 30
  else 31

/-- Whether strptime("%Y-%m-%d") accepts the date: datetime years run
1..9999, months 1..12, days 1..length of the month. -/
def validDate (d : PyDate) : Bool :=
  1 ≤ d.year && d.year ≤ 9999 && 1 ≤ d.month && d.month ≤ 12 &&
    1 ≤ d.day && d.day ≤ daysInMonth d.year d.month

def daysBeforeYear (y : Nat) : Nat :=
  365 * (y - 1) + (y - 1) / 4 - (y - 1) / 100 + (y - 1) / 400

def daysBeforeMonth (y m : Nat) : Nat :=
  (List.range (m - 1)).foldl (fun acc i => acc + daysInMonth y (i + 1)) 0

/-- date.toordinal(): day number of the date, counting 0001-01-01 as 1. -/
def toOrdinal (d : PyDate) : Nat :=
  daysBeforeYear d.year + daysBeforeMonth d.year d.month + d.day

/-- date.weekday() as a function of the day number: Monday = 0. -/
def pyWeekday (ordinal : Nat) : Nat := (ordinal - 1) % 7

/-- Transcription of the weekday-counting while loop: walk one day at a time
from the current day while it is strictly before the end day, counting the
day when its weekday index is below 5 (Monday..Friday). -/
def countWeekdaysLoop (current endOrd : Nat) : Nat :=
  if current < endOrd then
    (if pyWeekday current < 5 then 1 else 0) + countWeekdaysLoop (current + 1) endOrd
  else 0
termination_by endOrd - current

/-- Transcription of calculate_working_weeks.  strptime failure on either
argument (ValueError, fatal in the source) is the none case; otherwise the
source returns the tuple (total_days, total_weeks, working_days,
working_weeks) with total_days the whole-day difference, total_weeks its
seventh as a real, working_days the weekday count minus the PTO days, and
working_weeks its fifth as a real. -/
def calculate_working_weeks (start_date end_date : PyDate) (pto_days : Int) :
    Option (Int × ℚ × Int × ℚ) :=
  if validDate start_date && validDate end_date then
    let s := toOrdinal start_date
    let e := toOrdinal end_date
    let total_days : Int := (e : Int) - (s : Int)
    let total_weeks : ℚ := (total_days : ℚ) / 7
    let weekdays : Nat := countWeekdaysLoop s e
    let working_days : Int := (weekdays : Int) - pto_days
    let working_weeks : ℚ := (working_days : ℚ) / 5
    some (total_days, total_weeks, working_days, working_weeks)
  else none

lemma countWeekdaysLoop_add (n : Nat) :
    ∀ s, countWeekdaysLoop s (s + n) =
      ((List.range' s n).filter (fun o => pyWeekday o < 5)).length := by
  induction n with
  | zero =>
    intro s
    rw [countWeekdaysLoop]
    simp
  | succ n ih =>
    intro s
    rw [countWeekdaysLoop, if_pos (by omega : s < s + (n + 1))]
    have hshift : s + (n + 1) = (s + 1) + n := by omega
    rw [hshift, ih (s + 1), List.range'_succ, List.filter_cons]
    by_cases h : pyWeekday s < 5 <;> simp [h, Nat.add_comm]

/-- The loop counts exactly the weekdays among the day numbers from the
start day up to but not including the end day. -/
lemma countWeekdaysLoop_eq (s e : Nat) :
    countWeekdaysLoop s e =
      ((List.range' s (e - s)).filter (fun o => pyWeekday o < 5)).length := by
  by_cases h : s ≤ e
  · have he : e = s + (e - s) := by omega
    conv_lhs => rw [he]
    exact countWeekdaysLoop_add (e - s) s
  · have h0 : e - s = 0 := by omega
    rw [h0, countWeekdaysLoop, if_neg (by omega)]
    simp

/-- C4 counterexample: with end 2025-03-03 strictly before start 2025-03-10
(both valid calendar dates), calculate_working_weeks does not fail: the
weekday scan simply never runs and a result tuple is produced, with
total days -7, total weeks -1, working days 0 and working weeks 0. -/
theorem reversed_range_produces_result :
    calculate_working_weeks ⟨2025, 3, 10⟩ ⟨2025, 3, 3⟩ 0 = some (-7, -1, 0, 0) ∧
    (calculate_working_weeks ⟨2025, 3, 10⟩ ⟨2025, 3, 3⟩ 0).isSome = true := by
  have hw : countWeekdaysLoop (toOrdinal ⟨2025, 3, 10⟩) (toOrdinal ⟨2025, 3, 3⟩) = 0 := by
    rw [countWeekdaysLoop_eq]
    decide
  have htd : (toOrdinal (⟨2025, 3, 3⟩ : PyDate) : Int) -
      (toOrdinal (⟨2025, 3, 10⟩ : PyDate) : Int) = -7 := by decide
  constructor
  · simp only [calculate_working_weeks]
    rw [if_pos (by decide), hw, htd]
    norm_num
  · simp only [calculate_working_weeks]
    rw [if_pos (by decide)]
    rfl

/-- C4 as the code has it: calculate_working_weeks fails exactly when one of
the arguments is not a valid calendar date (strptime raises ValueError,
fatal in the source); whenever both dates are valid a result is produced,
including when the end date is strictly before the start date. -/
theorem working_weeks_fails_iff_invalid (s e : PyDate) (pto : Int) :
    (calculate_working_weeks s e pto).isSome = (validDate s && validDate e) := by
  simp only [calculate_working_weeks]
  by_cases h : (validDate s && validDate e) = true
  · rw [if_pos h, h]
    rfl
  · rw [if_neg h]
    simp only [Bool.not_eq_true] at h
    rw [h]
    rfl

/-- C5: the weekday scan walks each day number from the start day up to but
not including the end day, counting a day iff its weekday index falls in
Monday..Friday (index below 5); on the example range 2025-03-03 (a Monday)
to 2025-03-10, the scan counts 5 weekdays and calculate_working_weeks
returns total days 7, total weeks 1, working days 5 and working weeks 1.0
for 0 PTO days. -/
theorem working_weeks_example :
    (∀ a b : Nat, countWeekdaysLoop a b =
        ((List.range' a (b - a)).filter (fun o => pyWeekday o < 5)).length) ∧
    countWeekdaysLoop (toOrdinal ⟨2025, 3, 3⟩) (toOrdinal ⟨2025, 3, 10⟩) = 5 ∧
    calculate_working_weeks ⟨2025, 3, 3⟩ ⟨2025, 3, 10⟩ 0 = some (7, 1, 5, 1) := by
  have hw : countWeekdaysLoop (toOrdinal ⟨2025, 3, 3⟩) (toOrdinal ⟨2025, 3, 10⟩) = 5 := by
    rw [countWeekdaysLoop_eq]
    decide
  have htd : (toOrdinal (⟨2025, 3, 10⟩ : PyDate) : Int) -
      (toOrdinal (⟨2025, 3, 3⟩ : PyDate) : Int) = 7 := by decide
  refine ⟨countWeekdaysLoop_eq, hw, ?_⟩
  simp only [calculate_working_weeks]
  rw [if_pos (by decide), hw, htd]
  norm_num

/-- C6: on every valid date range and every PTO count, the working days in
the result are the weekday count minus the PTO days, with no clamping, and
the working weeks are the working days divided by 5 as an exact rational;
in particular the working days are negative whenever the PTO days exceed
the weekday count. -/
theorem working_days_subtract_pto (s e : PyDate) (pto : Int) (r : Int × ℚ × Int × ℚ)
    (h : calculate_working_weeks s e pto = some r) :
    r.2.2.1 = (countWeekdaysLoop (toOrdinal s) (toOrdinal e) : Int) - pto ∧
    r.2.2.2 = (r.2.2.1 : ℚ) / 5 ∧
    ((countWeekdaysLoop (toOrdinal s) (toOrdinal e) : Int) < pto → r.2.2.1 < 0) := by
  simp only [calculate_working_weeks] at h
  by_cases hv : (validDate s && validDate e) = true
  · rw [if_pos hv] at h
    have hr := (Option.some_injective _ h).symm
    subst hr
    refine ⟨rfl, rfl, ?_⟩
    intro hlt
    dsimp only
    omega
  · rw [if_neg hv] at h
    exact absurd h (by simp)

/-- Witness for C6 on the range 2025-03-03 to 2025-03-10 with 10 PTO days:
the 5 weekdays minus 10 PTO days give working days -5 (negative, not
clamped) and working weeks -1. -/
theorem working_days_subtract_pto_witness :
    ((7 : Int), (1 : ℚ), (-5 : Int), (-1 : ℚ)).2.2.1 =
        (countWeekdaysLoop (toOrdinal ⟨2025, 3, 3⟩) (toOrdinal ⟨2025, 3, 10⟩) : Int) - 10 ∧
    ((7 : Int), (1 : ℚ), (-5 : Int), (-1 : ℚ)).2.2.2 =
        (((7 : Int), (1 : ℚ), (-5 : Int), (-1 : ℚ)).2.2.1 : ℚ) / 5 ∧
    ((countWeekdaysLoop (toOrdinal ⟨2025, 3, 3⟩) (toOrdinal ⟨2025, 3, 10⟩) : Int) < 10 →
      ((7 : Int), (1 : ℚ), (-5 : Int), (-1 : ℚ)).2.2.1 < 0) := by
  refine working_days_subtract_pto ⟨2025, 3, 3⟩ ⟨2025, 3, 10⟩ 10 (7, 1, -5, -1) ?_
  have hw : countWeekdaysLoop (toOrdinal ⟨2025, 3, 3⟩) (toOrdinal ⟨2025, 3, 10⟩) = 5 := by
    rw [countWeekdaysLoop_eq]
    decide
  have htd : (toOrdinal (⟨2025, 3, 10⟩ : PyDate) : Int) -
      (toOrdinal (⟨2025, 3, 3⟩ : PyDate) : Int) = 7 := by decide
  simp only [calculate_working_weeks]
  rw [if_pos (by decide), hw, htd]
  norm_num

end Wrapped
